import Mathlib

/-!
Shallow embedding of the bill-splitter application's cost-allocation core
(src/app/input.tsx, src/app/batch-create.tsx, src/app/index.tsx,
src/app/result.tsx).

Modelling conventions:
* JavaScript numbers are modelled as rationals (`ℚ`).
* A numeric text field is modelled by its parse result: `none` stands for a
  blank or unparseable field (JS `NaN`), `some q` for a field parsing to `q`;
  the JS idiom `parseFloat(s) || 0` becomes `Option.getD 0`.
* A JS `Date` is modelled as a year/month/day triple (month 0-based, as in
  JS), with `setMonth(getMonth() + 1)` normalisation of day overflow and
  `getTime`-style chronological comparison via a day count.
* `AsyncStorage` persistence is modelled as whole-collection replacement:
  the updated `bills` collection is the old list with the new bills appended.
-/

namespace BillSplit

/-- Model of `parseFloat(text) || 0` on an already-parsed field: a blank or
unparseable field (NaN) collapses to 0. -/
def parseFloatOr0 (o : Option ℚ) : ℚ := o.getD 0

/-- Model of `parseInt(text, 10) || 0`. -/
def parseIntOr0 (o : Option ℤ) : ℤ := o.getD 0

/-- A raw numeric text field where JS truthiness of the raw string matters
(`batch-create.tsx` checks `!totalCost` before parsing): `empty` is the empty
string, `filled o` a non-empty string whose parse result is `o`. -/
inductive StrField where
  | empty : StrField
  | filled (parsed : Option ℚ) : StrField
deriving DecidableEq

/-- `parseFloat(raw) || 0` on a raw field. -/
def StrField.parseOr0 : StrField → ℚ
  | .empty => 0
  | .filled o => o.getD 0

/-- JS falsiness of the raw string (`!totalCost`): true only for `""`. -/
def StrField.isEmptyStr : StrField → Bool
  | .empty => true
  | .filled _ => false

/-- `extraService` as stored on a bill (`input.tsx` `FamilyInBill`, numbers
materialised). -/
structure ExtraService where
  hasService : Bool
  cost : ℚ
deriving DecidableEq

/-- A family's participation in one bill (the element type of
`Bill.families`). -/
structure Participation where
  id : ℕ
  name : String
  lines : ℚ
  extraService : ExtraService
deriving DecidableEq

/-- A bill record as persisted under the `"bills"` key
(`BillData` in `index.tsx` / `batch-create.tsx`). -/
structure Bill where
  id : ℤ
  billMonth : String
  totalCost : ℚ
  costPerLine : ℚ
  families : List Participation
deriving DecidableEq

/-- The extra-service text field of the single-bill input form. -/
structure ExtraServiceInput where
  hasService : Bool
  cost : Option ℚ
deriving DecidableEq

/-- One family entry of the single-bill input form (`FamilyInBill` in
`input.tsx`): `lines` and `extraService.cost` are text fields. -/
structure FamilyInBill where
  id : ℕ
  name : String
  lines : Option ℤ
  extraService : ExtraServiceInput
deriving DecidableEq

/-- `totalExtraServiceCost`: the sum of the materialised extra-service costs
of a participation list. -/
def totalExtra (ps : List Participation) : ℚ :=
  (ps.map (fun p => p.extraService.cost)).sum

/-- `totalLines`: the sum of the line counts of a participation list. -/
def totalLines (ps : List Participation) : ℚ :=
  (ps.map (fun p => p.lines)).sum

/-- The body of the `familiesInBill.map` in `input.tsx` `handleCalculate`
(lines 149-160): parse the line count, and materialise the extra cost as the
parsed cost when `hasService` is set and as `0` otherwise. -/
def calcFamily (f : FamilyInBill) : Participation :=
  { id := f.id
    name := f.name
    lines := (parseIntOr0 f.lines : ℚ)
    extraService :=
      { hasService := f.extraService.hasService
        cost := if f.extraService.hasService then parseFloatOr0 f.extraService.cost else 0 } }

/-- `input.tsx` `handleCalculate` (lines 144-177): parse the form, compute the
per-line rate with the `totalLines > 0` guard, and assemble the result object
passed to the result screen (and saved unchanged, except for the `id`, by
`result.tsx` `handleSaveBill`). -/
def handleCalculate (totalCostField : Option ℚ) (familiesInBill : List FamilyInBill)
    (billMonth : String) (editingBillId : ℤ) : Bill :=
  let parsedTotalCost := parseFloatOr0 totalCostField
  let families := familiesInBill.map calcFamily
  let totalLineCost := parsedTotalCost - totalExtra families
  { id := editingBillId
    billMonth := billMonth
    totalCost := parsedTotalCost
    costPerLine := if 0 < totalLines families then totalLineCost / totalLines families else 0
    families := families }

/-- `result.tsx` lines 189-191: the per-family total shown on the result
screen, `familyLineCost + family.extraService.cost`, with the extra cost added
unconditionally. -/
def displayedFamilyTotal (b : Bill) (p : Participation) : ℚ :=
  p.lines * b.costPerLine + p.extraService.cost

/-- The enabled-gated per-family total of the allocation step (the
`(enabled ? extraService.cost : 0)` variant used while materialising the bill
in `input.tsx`). -/
def gatedFamilyTotal (b : Bill) (p : Participation) : ℚ :=
  p.lines * b.costPerLine + (if p.extraService.hasService then p.extraService.cost else 0)

/-- Decimal digit character, for rendering numbers into strings
(JS template interpolation such as the `家庭` fallback label). -/
def digitChar : ℕ → Char
  | 0 => '0' | 1 => '1' | 2 => '2' | 3 => '3' | 4 => '4'
  | 5 => '5' | 6 => '6' | 7 => '7' | 8 => '8' | _ => '9'

/-- Fuelled decimal rendering of a natural number (most significant digit
first); `fuel > n` always suffices. -/
def toDecCore : ℕ → ℕ → List Char
  | 0, _ => []
  | fuel + 1, n =>
    if n < 10 then [digitChar n] else toDecCore fuel (n / 10) ++ [digitChar (n % 10)]

/-- The standard decimal rendering of a natural number, as produced by JS
string interpolation of an integer-valued number. -/
def toDecString (n : ℕ) : String := String.mk (toDecCore (n + 1) n)

/-- `padStart(2, '0')` of a month number. -/
def pad2 (n : ℕ) : String :=
  if n < 10 then "0" ++ toDecString n else toDecString n

/-- Gregorian leap-year test (what `Date` month arithmetic uses for the length
of February). -/
def isLeap (y : ℕ) : Bool :=
  (y % 4 == 0 && y % 100 != 0) || y % 400 == 0

/-- Days in the 0-based month `m` of year `y` (JS `Date` month lengths). -/
def daysInMonth (y : ℕ) : ℕ → ℕ
  | 0 => 31
  | 1 => if isLeap y then 29 else 28
  | 2 => 31
  | 3 => 30
  | 4 => 31
  | 5 => 30
  | 6 => 31
  | 7 => 31
  | 8 => 30
  | 9 => 31
  | 10 => 30
  | _ => 31

/-- Days in year `y` before the start of 0-based month `m`. -/
def daysBeforeMonth (y : ℕ) : ℕ → ℕ
  | 0 => 0
  | m + 1 => daysBeforeMonth y m + daysInMonth y m

/-- Number of days of year `y`. -/
def daysInYear (y : ℕ) : ℕ := if isLeap y then 366 else 365

/-- Number of days in the years `0, 1, ..., y - 1` (closed Gregorian form:
`365 y` plus the number of leap years below `y`). -/
def daysBeforeYear (y : ℕ) : ℕ :=
  365 * y + (y + 3) / 4 + (y + 399) / 400 - (y + 99) / 100

/-- A JS `Date` at day granularity: 0-based `month`, 1-based `day`.  The dates
handled by the app come from date pickers, so hours/minutes are irrelevant. -/
structure JSDate where
  year : ℕ
  month : ℕ
  day : ℕ
deriving DecidableEq

/-- Absolute day index of a date: the chronological key underlying
`Date.getTime()`. -/
def dayNumber (d : JSDate) : ℕ :=
  daysBeforeYear d.year + daysBeforeMonth d.year d.month + d.day

/-- `Date.getTime()` in milliseconds (dates at midnight; the epoch offset is a
constant that cancels in every comparison and collision question). -/
def getTime (d : JSDate) : ℤ := 86400000 * (dayNumber d : ℤ)

/-- `currentDate.setMonth(currentDate.getMonth() + 1)`: move to the next
month keeping the day, and JS-normalise an overflowing day into the following
month (e.g. Jan 31 becomes "Feb 31" which normalises to Mar 2 or Mar 3). -/
def addMonth (dt : JSDate) : JSDate :=
  let y := if dt.month = 11 then dt.year + 1 else dt.year
  let m := if dt.month = 11 then 0 else dt.month + 1
  if dt.day ≤ daysInMonth y m then ⟨y, m, dt.day⟩
  else if m = 11 then ⟨y + 1, 0, dt.day - daysInMonth y m⟩
  else ⟨y, m + 1, dt.day - daysInMonth y m⟩

/-- `formatBillMonth` (identical in `input.tsx`, `index.tsx`,
`batch-create.tsx`): the token `"YYYY年 MM月"` with a zero-padded 1-based
month. -/
def formatBillMonth (d : JSDate) : String :=
  toDecString d.year ++ "年 " ++ pad2 (d.month + 1) ++ "月"

/-- The `while (currentDate <= endDate)` loop of `batch-create.tsx` (lines
128-138), as a fuelled iteration: emit the current date and advance by one
month while the current timestamp does not exceed the end timestamp.  Any
`fuel` larger than the day distance is sufficient, since `addMonth` strictly
increases `dayNumber` (see `genDates_stable`). -/
def genDates : ℕ → JSDate → JSDate → List JSDate
  | 0, _, _ => []
  | fuel + 1, endD, cur =>
    if getTime cur ≤ getTime endD then cur :: genDates fuel endD (addMonth cur) else []

/-- A saved family record (`FamilyData` in `batch-create.tsx`); the member
list is abstracted to its length, which is all `handleBatchCreate` reads
(`f.members.length`). -/
structure FamilyData where
  id : ℕ
  name : String
  members : ℕ
deriving DecidableEq

/-- The state read by `handleBatchCreate`: loaded families, the
selection set, the per-family extra-cost text fields (`none` models a missing
or unparseable entry, so `parseFloat(...) || 0` yields 0), the total-cost text
field, and the two picked dates (`none` = not picked). -/
structure BatchInput where
  allFamilies : List FamilyData
  selectedFamilyIds : List ℕ
  extraServiceCosts : ℕ → Option ℚ
  totalCost : StrField
  startDate : Option JSDate
  endDate : Option JSDate

/-- The validation failures of `handleBatchCreate` (the three `Alert` +
`return` paths before any bill is built). -/
inductive BatchError where
  | missingInfo : BatchError
  | dateOrder : BatchError
  | insufficientTotal : BatchError
deriving DecidableEq

/-- Outcome of a batch run: a validation error, or the list of new bills. -/
inductive BatchResult where
  | failed (e : BatchError) : BatchResult
  | created (newBills : List Bill) : BatchResult
deriving DecidableEq

/-- The `selectedFamilies.map` body of `batch-create.tsx` (lines 106-115):
line count is the member count, the extra cost is the parsed field, and
`hasService` is materialised as `extraCost > 0`. -/
def batchFamily (inp : BatchInput) (f : FamilyData) : Participation :=
  let extraCost := parseFloatOr0 (inp.extraServiceCosts f.id)
  { id := f.id
    name := f.name
    lines := (f.members : ℚ)
    extraService := { hasService := decide (0 < extraCost), cost := extraCost } }

/-- `familiesForBill`: the participation snapshot shared by every bill of a
batch run. -/
def batchFamilies (inp : BatchInput) : List Participation :=
  (inp.allFamilies.filter (fun f => inp.selectedFamilyIds.contains f.id)).map (batchFamily inp)

/-- The body of `handleBatchCreate` once both dates are present: validate
(missing selection/total, inverted range, extra costs exceeding the total),
compute the shared per-line rate, and emit one bill per `while` iteration. -/
def handleBatchCreateGo (inp : BatchInput) (now : ℤ) (startD endD : JSDate) : BatchResult :=
  if inp.selectedFamilyIds.isEmpty || inp.totalCost.isEmptyStr then .failed .missingInfo
  else if getTime endD < getTime startD then .failed .dateOrder
  else if inp.totalCost.parseOr0 - totalExtra (batchFamilies inp) < 0 then
    .failed .insufficientTotal
  else
    .created ((genDates (dayNumber endD + 1 - dayNumber startD) endD startD).map
      (fun d =>
        { id := now + getTime d
          billMonth := formatBillMonth d
          totalCost := inp.totalCost.parseOr0
          costPerLine :=
            if 0 < totalLines (batchFamilies inp)
            then (inp.totalCost.parseOr0 - totalExtra (batchFamilies inp))
                  / totalLines (batchFamilies inp)
            else 0
          families := batchFamilies inp }))

/-- `batch-create.tsx` `handleBatchCreate` (lines 89-143): the
`!startDate || !endDate` part of the first validation, then
`handleBatchCreateGo`.  `Date.now()` is modelled as the fixed run timestamp
`now`, so a generated id is `now + currentDate.getTime()`. -/
def handleBatchCreate (inp : BatchInput) (now : ℤ) : BatchResult :=
  match inp.startDate, inp.endDate with
  | some startD, some endD => handleBatchCreateGo inp now startD endD
  | _, _ => .failed .missingInfo

/-- The persisted `"bills"` collection after a batch run: on success the new
bills are appended to the existing ones (lines 140-143); on a validation
failure the store is untouched. -/
def persistedBatchBills (existing : List Bill) (inp : BatchInput) (now : ℤ) : List Bill :=
  match handleBatchCreate inp now with
  | .created newBills => existing ++ newBills
  | .failed _ => existing

/-- One row of the aggregation result (`SummaryResult` in `index.tsx`); the
`lines`, `monthlyBill` and `extraServiceCost` fields of the source are
initialised to 0 and never updated, so they are omitted. -/
structure SummaryEntry where
  name : String
  totalCost : ℚ
  monthlyBreakdown : List (String × ℚ)
deriving DecidableEq

/-- The grouping key of `handleCalculateSummary` (line 309):
`family.name || `家庭 ${family.id}``.  The only falsy string is `""`. -/
def summaryKey (p : Participation) : String :=
  if p.name = "" then "家庭 " ++ toDecString p.id else p.name

/-- `familyTotalCost` (line 310): `family.lines * bill.costPerLine +
family.extraService.cost`, the extra cost added unconditionally. -/
def contribution (b : Bill) (p : Participation) : ℚ :=
  p.lines * b.costPerLine + p.extraService.cost

/-- Update the summary mapping at key `k` with one contribution `c` for month
`mo`: JS object semantics keep insertion order, create the entry on first
touch, and accumulate `totalCost` while appending to `monthlyBreakdown`
(lines 312-325). -/
def upsert : List SummaryEntry → String → String → ℚ → List SummaryEntry
  | [], k, mo, c => [⟨k, c, [(mo, c)]⟩]
  | e :: rest, k, mo, c =>
    if e.name = k then ⟨e.name, e.totalCost + c, e.monthlyBreakdown ++ [(mo, c)]⟩ :: rest
    else e :: upsert rest k mo c

/-- The inner `bill.families.forEach` of `handleCalculateSummary`. -/
def addBill (acc : List SummaryEntry) (b : Bill) : List SummaryEntry :=
  b.families.foldl (fun a p => upsert a (summaryKey p) b.billMonth (contribution b p)) acc

/-- Lexicographic comparison of character lists by code point: the JS `<` on
strings (code-unit order, identical to code-point order on the BMP tokens the
app compares). -/
def charsLt : List Char → List Char → Bool
  | [], [] => false
  | [], _ :: _ => true
  | _ :: _, [] => false
  | a :: as, b :: bs =>
    if a.toNat < b.toNat then true
    else if b.toNat < a.toNat then false
    else charsLt as bs

/-- JS `s < t` on strings. -/
def strLt (s t : String) : Bool := charsLt s.data t.data

/-- The range filter of `handleCalculateSummary` (lines 297-299):
`bill.billMonth >= startMonthStr && bill.billMonth <= endMonthStr`, JS
lexicographic string comparison (`a >= b` is `!(a < b)` on a total order). -/
def inRange (startMonthStr endMonthStr : String) (b : Bill) : Bool :=
  !strLt b.billMonth startMonthStr && !strLt endMonthStr b.billMonth

/-- `index.tsx` `handleCalculateSummary` (lines 290-337): filter the bills to
the queried month range and fold every participation of every matching bill
into the name-keyed summary mapping.  (The source additionally alerts and
shows nothing when the bill list or the filtered list is empty; the computed
summary is the empty list in those cases.) -/
def handleCalculateSummary (allBills : List Bill) (startMonthStr endMonthStr : String) :
    List SummaryEntry :=
  (allBills.filter (inRange startMonthStr endMonthStr)).foldl addBill []

/-- Lookup of a summary entry's accumulated `totalCost` by its grouping key
(0 when the key was never touched). -/
def totalFor : List SummaryEntry → String → ℚ
  | [], _ => 0
  | e :: rest, k => if e.name = k then e.totalCost else totalFor rest k

/-- The grouping keys of a summary, in insertion order. -/
def entryNames (s : List SummaryEntry) : List String := s.map (fun e => e.name)

/-- Rewrite every participation id in a bill through `g`, leaving names,
line counts, costs and the bill itself unchanged (used to state that
aggregation groups by name, not id). -/
def setParticipationIds (g : ℕ → ℕ) (b : Bill) : Bill :=
  { b with families := b.families.map (fun p => { p with id := g p.id }) }

/-! ## Supporting lemmas -/

lemma sum_map_add {α : Type} (xs : List α) (f g : α → ℚ) :
    (xs.map (fun x => f x + g x)).sum = (xs.map f).sum + (xs.map g).sum := by
  induction xs with
  | nil => simp
  | cons x xs ih => simp only [List.map_cons, List.sum_cons, ih]; ring

lemma sum_map_mul {α : Type} (xs : List α) (f : α → ℚ) (c : ℚ) :
    (xs.map (fun x => f x * c)).sum = (xs.map f).sum * c := by
  induction xs with
  | nil => simp
  | cons x xs ih => simp only [List.map_cons, List.sum_cons, ih]; ring

/-- Once the per-line rate is `(T - totalExtra ps) / totalLines ps` with a
positive line count, summing `lines × rate + cost` over the participations
recovers the line cost plus the extra costs. -/
lemma alloc_sum (ps : List Participation) (T cpl : ℚ)
    (hcpl : cpl = (T - totalExtra ps) / totalLines ps) (h : 0 < totalLines ps) :
    (ps.map (fun p => p.lines * cpl + p.extraService.cost)).sum
      = (T - totalExtra ps) + totalExtra ps := by
  rw [sum_map_add ps (fun p => p.lines * cpl) (fun p => p.extraService.cost)]
  have h1 : (ps.map (fun p => p.lines * cpl)).sum = totalLines ps * cpl :=
    sum_map_mul ps (fun p => p.lines) cpl
  rw [h1, hcpl, mul_comm, div_mul_cancel₀ _ (ne_of_gt h)]
  rfl

lemma handleBatchCreate_eq_go {inp : BatchInput} {now : ℤ} {s e : JSDate}
    (hs : inp.startDate = some s) (he : inp.endDate = some e) :
    handleBatchCreate inp now = handleBatchCreateGo inp now s e := by
  unfold handleBatchCreate
  rw [hs, he]

lemma handleBatchCreate_none_start {inp : BatchInput} {now : ℤ}
    (hs : inp.startDate = none) :
    handleBatchCreate inp now = .failed .missingInfo := by
  unfold handleBatchCreate
  rcases he : inp.endDate with _ | e <;> rw [hs]

lemma handleBatchCreate_none_end {inp : BatchInput} {now : ℤ}
    (he : inp.endDate = none) :
    handleBatchCreate inp now = .failed .missingInfo := by
  unfold handleBatchCreate
  rcases hs : inp.startDate with _ | s <;> rw [he]

/-- Decomposition of a successful batch run: both dates were present and the
new bills are the mapped month iteration. -/
lemma handleBatchCreate_created {inp : BatchInput} {now : ℤ} {bills : List Bill}
    (h : handleBatchCreate inp now = .created bills) :
    ∃ s e, inp.startDate = some s ∧ inp.endDate = some e ∧
      bills = (genDates (dayNumber e + 1 - dayNumber s) e s).map (fun d =>
        { id := now + getTime d
          billMonth := formatBillMonth d
          totalCost := inp.totalCost.parseOr0
          costPerLine :=
            if 0 < totalLines (batchFamilies inp)
            then (inp.totalCost.parseOr0 - totalExtra (batchFamilies inp))
                  / totalLines (batchFamilies inp)
            else 0
          families := batchFamilies inp }) := by
  rcases hs : inp.startDate with _ | s
  · rw [handleBatchCreate_none_start hs] at h; exact absurd h (by simp)
  rcases he : inp.endDate with _ | e
  · rw [handleBatchCreate_none_end he] at h; exact absurd h (by simp)
  rw [handleBatchCreate_eq_go hs he] at h
  unfold handleBatchCreateGo at h
  refine ⟨s, e, rfl, rfl, ?_⟩
  split at h
  · exact absurd h (by simp)
  · split at h
    · exact absurd h (by simp)
    · split at h
      · exact absurd h (by simp)
      · injection h with h2
        exact h2.symm

/-! ## Claims -/

/-- C1 (amended with the hypothesis `0 < totalLines`): for every single-bill
input whose participants have a positive total line count, the sum over the
saved bill's participations of `lineCount × costPerLine + extraService.cost`
(the §4.3 recomputation, extra cost always included) equals the line cost
used at save time (`totalCost` minus the sum of the materialised extra costs,
which are exactly the enabled ones) plus the sum of the stored extra costs.
When the total line count is not positive the guard sets `costPerLine = 0`
and the identity fails (see the counterexample). -/
theorem claim_C1 (tc : Option ℚ) (fams : List FamilyInBill) (mo : String) (eid : ℤ)
    (h : 0 < totalLines (handleCalculate tc fams mo eid).families) :
    ((handleCalculate tc fams mo eid).families.map
        (fun p => p.lines * (handleCalculate tc fams mo eid).costPerLine + p.extraService.cost)).sum
      = ((handleCalculate tc fams mo eid).totalCost
            - totalExtra (handleCalculate tc fams mo eid).families)
          + totalExtra (handleCalculate tc fams mo eid).families := by
  refine alloc_sum _ _ _ ?_ h
  show (if 0 < totalLines (fams.map calcFamily)
      then (parseFloatOr0 tc - totalExtra (fams.map calcFamily)) / totalLines (fams.map calcFamily)
      else 0)
    = (parseFloatOr0 tc - totalExtra (fams.map calcFamily)) / totalLines (fams.map calcFamily)
  exact if_pos h

/-- C2: in both the single-bill path and the batch path, a zero total line
count yields `costPerLine = 0` exactly, whatever the total and extra costs:
the division sits under the `totalLines > 0` guard, so it is never evaluated
with a zero divisor. -/
theorem claim_C2 :
    (∀ (tc : Option ℚ) (fams : List FamilyInBill) (mo : String) (eid : ℤ),
        totalLines (handleCalculate tc fams mo eid).families = 0 →
        (handleCalculate tc fams mo eid).costPerLine = 0)
    ∧ (∀ (inp : BatchInput) (now : ℤ) (bills : List Bill) (b : Bill),
        handleBatchCreate inp now = .created bills → b ∈ bills →
        totalLines b.families = 0 → b.costPerLine = 0) := by
  constructor
  · intro tc fams mo eid h
    have h' : totalLines (fams.map calcFamily) = 0 := h
    show (if 0 < totalLines (fams.map calcFamily)
        then (parseFloatOr0 tc - totalExtra (fams.map calcFamily)) / totalLines (fams.map calcFamily)
        else 0) = 0
    rw [h']
    simp
  · intro inp now bills b hok hb h
    obtain ⟨s, e, _, _, rfl⟩ := handleBatchCreate_created hok
    rcases List.mem_map.1 hb with ⟨d, _, rfl⟩
    have h' : totalLines (batchFamilies inp) = 0 := h
    show (if 0 < totalLines (batchFamilies inp)
        then (inp.totalCost.parseOr0 - totalExtra (batchFamilies inp))
              / totalLines (batchFamilies inp)
        else 0) = 0
    rw [h']
    simp

/-- C4: whenever the selected families' parsed fixed extra costs sum to more
than the parsed total, the batch run fails (so zero bills are produced and
the persisted collection is untouched); and when the earlier validations
pass, the failure is specifically the insufficiency error. -/
theorem claim_C4 (inp : BatchInput) (now : ℤ) (existing : List Bill)
    (hx : inp.totalCost.parseOr0 < totalExtra (batchFamilies inp)) :
    (∃ err, handleBatchCreate inp now = .failed err)
    ∧ persistedBatchBills existing inp now = existing
    ∧ (∀ s e, inp.startDate = some s → inp.endDate = some e →
        inp.selectedFamilyIds.isEmpty = false → inp.totalCost.isEmptyStr = false →
        ¬ getTime e < getTime s →
        handleBatchCreate inp now = .failed .insufficientTotal) := by
  have hneg : inp.totalCost.parseOr0 - totalExtra (batchFamilies inp) < 0 := by
    linarith
  have key : ∃ err, handleBatchCreate inp now = .failed err := by
    rcases hs : inp.startDate with _ | s
    · exact ⟨.missingInfo, handleBatchCreate_none_start hs⟩
    rcases he : inp.endDate with _ | e
    · exact ⟨.missingInfo, handleBatchCreate_none_end he⟩
    rw [handleBatchCreate_eq_go hs he]
    unfold handleBatchCreateGo
    by_cases h1 : inp.selectedFamilyIds.isEmpty || inp.totalCost.isEmptyStr
    · exact ⟨.missingInfo, if_pos h1⟩
    rw [if_neg h1]
    by_cases h2 : getTime e < getTime s
    · exact ⟨.dateOrder, if_pos h2⟩
    rw [if_neg h2, if_pos hneg]
    exact ⟨.insufficientTotal, rfl⟩
  refine ⟨key, ?_, ?_⟩
  · rcases key with ⟨err, hk⟩
    unfold persistedBatchBills
    rw [hk]
  · intro s e hs he hsel htc hord
    rw [handleBatchCreate_eq_go hs he]
    unfold handleBatchCreateGo
    rw [hsel, htc]
    simp only [Bool.or_self, Bool.false_eq_true, if_false]
    rw [if_neg hord, if_pos hneg]

/-- C7 (amended): the check performed before generation is only that
`totalCost` is present (a non-empty string): an empty field fails with the
missing-information `ValidationError` and no bill is generated.  A non-empty
but unparseable `totalCost` is NOT rejected: `parseFloat(...) || 0` coerces
it to 0 and bills can still be generated (see the counterexample). -/
theorem claim_C7 (inp : BatchInput) (now : ℤ) (existing : List Bill)
    (h : inp.totalCost = StrField.empty) :
    handleBatchCreate inp now = .failed .missingInfo
    ∧ persistedBatchBills existing inp now = existing := by
  have hmain : handleBatchCreate inp now = .failed .missingInfo := by
    rcases hs : inp.startDate with _ | s
    · exact handleBatchCreate_none_start hs
    rcases he : inp.endDate with _ | e
    · exact handleBatchCreate_none_end he
    rw [handleBatchCreate_eq_go hs he]
    unfold handleBatchCreateGo
    have hte : inp.totalCost.isEmptyStr = true := by rw [h]; rfl
    simp [hte]
  refine ⟨hmain, ?_⟩
  unfold persistedBatchBills
  rw [hmain]

/-- C9: every participation materialised by the single-bill calculation has
`cost = 0` whenever `hasService = false` (the gate in `input.tsx` line 151),
so the unconditional per-family total shown by `result.tsx` (and used by
aggregation) coincides with the enabled-gated allocation total of §4.1. -/
theorem claim_C9 (tc : Option ℚ) (fams : List FamilyInBill) (mo : String) (eid : ℤ)
    (p : Participation) (hp : p ∈ (handleCalculate tc fams mo eid).families) :
    (p.extraService.hasService = false → p.extraService.cost = 0)
    ∧ displayedFamilyTotal (handleCalculate tc fams mo eid) p
        = gatedFamilyTotal (handleCalculate tc fams mo eid) p := by
  have hp' : p ∈ fams.map calcFamily := hp
  rcases List.mem_map.1 hp' with ⟨f, _, rfl⟩
  constructor
  · intro hfalse
    have hf : f.extraService.hasService = false := by simpa [calcFamily] using hfalse
    simp [calcFamily, hf]
  · by_cases hs : f.extraService.hasService <;>
      simp [displayedFamilyTotal, gatedFamilyTotal, calcFamily, hs]

section

attribute [local semireducible] Rat.mul Rat.add Rat.sub Rat.inv

/-- Witness for C1 at the worked example of §8: `totalCost = 300`, family A
with 2 lines and no extra, family B with 1 line and an enabled extra of 30. -/
theorem claim_C1_witness :
    0 < totalLines (handleCalculate (some 300)
        [⟨1, "A", some 2, ⟨false, some 0⟩⟩, ⟨2, "B", some 1, ⟨true, some 30⟩⟩]
        "2024年 01月" 0).families
    ∧ ((handleCalculate (some 300)
          [⟨1, "A", some 2, ⟨false, some 0⟩⟩, ⟨2, "B", some 1, ⟨true, some 30⟩⟩]
          "2024年 01月" 0).families.map
        (fun p => p.lines * (handleCalculate (some 300)
            [⟨1, "A", some 2, ⟨false, some 0⟩⟩, ⟨2, "B", some 1, ⟨true, some 30⟩⟩]
            "2024年 01月" 0).costPerLine + p.extraService.cost)).sum
      = ((handleCalculate (some 300)
            [⟨1, "A", some 2, ⟨false, some 0⟩⟩, ⟨2, "B", some 1, ⟨true, some 30⟩⟩]
            "2024年 01月" 0).totalCost
          - totalExtra (handleCalculate (some 300)
              [⟨1, "A", some 2, ⟨false, some 0⟩⟩, ⟨2, "B", some 1, ⟨true, some 30⟩⟩]
              "2024年 01月" 0).families)
        + totalExtra (handleCalculate (some 300)
            [⟨1, "A", some 2, ⟨false, some 0⟩⟩, ⟨2, "B", some 1, ⟨true, some 30⟩⟩]
            "2024年 01月" 0).families :=
  ⟨by decide, claim_C1 _ _ _ _ (by decide)⟩

/-- C1 as frozen is false without the positivity hypothesis: a single
participant with 0 lines and `totalCost = 100` gives `costPerLine = 0`, so
the per-family totals sum to 0 while the save-time line cost is 100. -/
theorem claim_C1_counterexample :
    ¬ ((handleCalculate (some 100) [⟨1, "A", some 0, ⟨false, none⟩⟩] "2024年 01月" 0).families.map
          (fun p => p.lines * (handleCalculate (some 100) [⟨1, "A", some 0, ⟨false, none⟩⟩]
              "2024年 01月" 0).costPerLine + p.extraService.cost)).sum
      = ((handleCalculate (some 100) [⟨1, "A", some 0, ⟨false, none⟩⟩] "2024年 01月" 0).totalCost
            - totalExtra (handleCalculate (some 100) [⟨1, "A", some 0, ⟨false, none⟩⟩]
                "2024年 01月" 0).families)
          + totalExtra (handleCalculate (some 100) [⟨1, "A", some 0, ⟨false, none⟩⟩]
              "2024年 01月" 0).families := by
  decide

/-- Witness for C2: a single-bill input whose only participant has 0 lines,
and a batch run over one month whose only selected family has 0 members. -/
theorem claim_C2_witness :
    (handleCalculate (some 50) [⟨1, "A", some 0, ⟨false, none⟩⟩] "2024年 01月" 0).costPerLine = 0
    ∧ (⟨86400000 * 739266, "2024年 01月", 50, 0, [⟨1, "A", 0, ⟨false, 0⟩⟩]⟩ : Bill).costPerLine
        = 0 :=
  ⟨claim_C2.1 (some 50) [⟨1, "A", some 0, ⟨false, none⟩⟩] "2024年 01月" 0 (by decide),
   claim_C2.2
     { allFamilies := [⟨1, "A", 0⟩], selectedFamilyIds := [1],
       extraServiceCosts := fun _ => none, totalCost := .filled (some 50),
       startDate := some ⟨2024, 0, 15⟩, endDate := some ⟨2024, 0, 15⟩ } 0
     [⟨86400000 * 739266, "2024年 01月", 50, 0, [⟨1, "A", 0, ⟨false, 0⟩⟩]⟩]
     ⟨86400000 * 739266, "2024年 01月", 50, 0, [⟨1, "A", 0, ⟨false, 0⟩⟩]⟩
     (by decide) (by decide) (by decide)⟩

/-- Witness for C4: one selected family with a fixed extra of 50 against a
total of 40 over a one-month range. -/
theorem claim_C4_witness :
    handleBatchCreate
        { allFamilies := [⟨1, "A", 1⟩], selectedFamilyIds := [1],
          extraServiceCosts := fun _ => some 50, totalCost := .filled (some 40),
          startDate := some ⟨2024, 0, 15⟩, endDate := some ⟨2024, 0, 15⟩ } 0
      = .failed .insufficientTotal
    ∧ persistedBatchBills []
        { allFamilies := [⟨1, "A", 1⟩], selectedFamilyIds := [1],
          extraServiceCosts := fun _ => some 50, totalCost := .filled (some 40),
          startDate := some ⟨2024, 0, 15⟩, endDate := some ⟨2024, 0, 15⟩ } 0
      = [] :=
  ⟨(claim_C4
      { allFamilies := [⟨1, "A", 1⟩], selectedFamilyIds := [1],
        extraServiceCosts := fun _ => some 50, totalCost := .filled (some 40),
        startDate := some ⟨2024, 0, 15⟩, endDate := some ⟨2024, 0, 15⟩ } 0 []
      (by decide)).2.2 ⟨2024, 0, 15⟩ ⟨2024, 0, 15⟩ rfl rfl rfl rfl (by decide),
   (claim_C4
      { allFamilies := [⟨1, "A", 1⟩], selectedFamilyIds := [1],
        extraServiceCosts := fun _ => some 50, totalCost := .filled (some 40),
        startDate := some ⟨2024, 0, 15⟩, endDate := some ⟨2024, 0, 15⟩ } 0 []
      (by decide)).2.1⟩

/-- Witness for C7 (amended): an empty total-cost field is rejected with the
missing-information error and the store is unchanged. -/
theorem claim_C7_witness :
    handleBatchCreate
        { allFamilies := [⟨1, "A", 1⟩], selectedFamilyIds := [1],
          extraServiceCosts := fun _ => none, totalCost := .empty,
          startDate := some ⟨2024, 0, 15⟩, endDate := some ⟨2024, 0, 15⟩ } 0
      = .failed .missingInfo
    ∧ persistedBatchBills
        [⟨1, "2023年 12月", 1, 1, []⟩]
        { allFamilies := [⟨1, "A", 1⟩], selectedFamilyIds := [1],
          extraServiceCosts := fun _ => none, totalCost := .empty,
          startDate := some ⟨2024, 0, 15⟩, endDate := some ⟨2024, 0, 15⟩ } 0
      = [⟨1, "2023年 12月", 1, 1, []⟩] :=
  claim_C7
    { allFamilies := [⟨1, "A", 1⟩], selectedFamilyIds := [1],
      extraServiceCosts := fun _ => none, totalCost := .empty,
      startDate := some ⟨2024, 0, 15⟩, endDate := some ⟨2024, 0, 15⟩ } 0
    [⟨1, "2023年 12月", 1, 1, []⟩] rfl

/-- C7 as frozen is false for an unparseable (but non-empty) `totalCost`: it
is coerced to 0 rather than rejected, and with no extra costs a bill is
generated (with `totalCost = 0`). -/
theorem claim_C7_counterexample :
    handleBatchCreate
        { allFamilies := [⟨1, "A", 1⟩], selectedFamilyIds := [1],
          extraServiceCosts := fun _ => none, totalCost := .filled none,
          startDate := some ⟨2024, 0, 15⟩, endDate := some ⟨2024, 0, 15⟩ } 0
      = .created [⟨86400000 * 739266, "2024年 01月", 0, 0, [⟨1, "A", 1, ⟨false, 0⟩⟩]⟩] := by
  decide

/-- Witness for C9: a participation whose extra service is disabled but whose
cost field contains 5; the materialised cost is 0 and the displayed total
agrees with the gated total. -/
theorem claim_C9_witness :
    ((⟨1, "A", 2, ⟨false, 0⟩⟩ : Participation).extraService.hasService = false →
        (⟨1, "A", 2, ⟨false, 0⟩⟩ : Participation).extraService.cost = 0)
    ∧ displayedFamilyTotal
          (handleCalculate (some 10) [⟨1, "A", some 2, ⟨false, some 5⟩⟩] "2024年 01月" 0)
          ⟨1, "A", 2, ⟨false, 0⟩⟩
        = gatedFamilyTotal
            (handleCalculate (some 10) [⟨1, "A", some 2, ⟨false, some 5⟩⟩] "2024年 01月" 0)
            ⟨1, "A", 2, ⟨false, 0⟩⟩ :=
  claim_C9 (some 10) [⟨1, "A", some 2, ⟨false, some 5⟩⟩] "2024年 01月" 0
    ⟨1, "A", 2, ⟨false, 0⟩⟩ (by decide)

end

/-! ## Date arithmetic lemmas -/

lemma daysInMonth_pos (y m : ℕ) : 0 < daysInMonth y m := by
  rcases m with _ | _ | _ | _ | _ | _ | _ | _ | _ | _ | _ | m <;>
    simp only [daysInMonth] <;>
    first
      | omega
      | (split <;> omega)

lemma isLeap_iff (y : ℕ) :
    isLeap y = true ↔ ((y % 4 = 0 ∧ ¬ y % 100 = 0) ∨ y % 400 = 0) := by
  unfold isLeap
  simp [Bool.or_eq_true, Bool.and_eq_true, beq_iff_eq, bne_iff_ne]

lemma daysInYear_eq (y : ℕ) :
    daysInYear y = if (y % 4 = 0 ∧ ¬ y % 100 = 0) ∨ y % 400 = 0 then 366 else 365 := by
  unfold daysInYear
  by_cases h : (y % 4 = 0 ∧ ¬ y % 100 = 0) ∨ y % 400 = 0
  · rw [if_pos ((isLeap_iff y).2 h), if_pos h]
  · rw [if_neg (fun hh => h ((isLeap_iff y).1 hh)), if_neg h]

set_option maxHeartbeats 1600000 in
lemma daysBeforeYear_succ (y : ℕ) :
    daysBeforeYear (y + 1) = daysBeforeYear y + daysInYear y := by
  rw [daysInYear_eq]
  unfold daysBeforeYear
  split <;> omega

lemma daysBeforeMonth_twelve (y : ℕ) : daysBeforeMonth y 12 = daysInYear y := by
  unfold daysInYear
  by_cases h : isLeap y <;>
    simp [daysBeforeMonth, daysInMonth, h]

lemma dayNumber_addMonth (dt : JSDate) : dayNumber dt < dayNumber (addMonth dt) := by
  obtain ⟨y, m, d⟩ := dt
  have hby := daysBeforeYear_succ y
  have h12 : daysBeforeMonth y 12 = daysInYear y := daysBeforeMonth_twelve y
  have h11 : daysBeforeMonth y 12 = daysBeforeMonth y 11 + daysInMonth y 11 := rfl
  have hd11 : daysInMonth y 11 = 31 := rfl
  by_cases hm : m = 11
  · subst hm
    by_cases hd : d ≤ daysInMonth (y + 1) 0
    · have ham : addMonth ⟨y, 11, d⟩ = ⟨y + 1, 0, d⟩ := by simp [addMonth, hd]
      rw [ham]
      show daysBeforeYear y + daysBeforeMonth y 11 + d
        < daysBeforeYear (y + 1) + daysBeforeMonth (y + 1) 0 + d
      have h0 : daysBeforeMonth (y + 1) 0 = 0 := rfl
      omega
    · have ham : addMonth ⟨y, 11, d⟩ = ⟨y + 1, 1, d - daysInMonth (y + 1) 0⟩ := by
        simp [addMonth, hd]
      rw [ham]
      show daysBeforeYear y + daysBeforeMonth y 11 + d
        < daysBeforeYear (y + 1) + daysBeforeMonth (y + 1) 1 + (d - daysInMonth (y + 1) 0)
      have h4 : daysInMonth (y + 1) 0 = 31 := rfl
      have h5 : daysBeforeMonth (y + 1) 1 = 31 := rfl
      omega
  · by_cases hd : d ≤ daysInMonth y (m + 1)
    · have ham : addMonth ⟨y, m, d⟩ = ⟨y, m + 1, d⟩ := by simp [addMonth, hm, hd]
      rw [ham]
      show daysBeforeYear y + daysBeforeMonth y m + d
        < daysBeforeYear y + daysBeforeMonth y (m + 1) + d
      have h1 : daysBeforeMonth y (m + 1) = daysBeforeMonth y m + daysInMonth y m := rfl
      have h2 := daysInMonth_pos y m
      omega
    · by_cases hm1 : m + 1 = 11
      · have hm10 : m = 10 := by omega
        subst hm10
        have ham : addMonth ⟨y, 10, d⟩ = ⟨y + 1, 0, d - daysInMonth y 11⟩ := by
          simp [addMonth, hd]
        rw [ham]
        show daysBeforeYear y + daysBeforeMonth y 10 + d
          < daysBeforeYear (y + 1) + daysBeforeMonth (y + 1) 0 + (d - daysInMonth y 11)
        have h1 : daysBeforeMonth y 11 = daysBeforeMonth y 10 + daysInMonth y 10 := rfl
        have h2 : daysInMonth y 10 = 30 := rfl
        have h0 : daysBeforeMonth (y + 1) 0 = 0 := rfl
        omega
      · have ham : addMonth ⟨y, m, d⟩ = ⟨y, m + 2, d - daysInMonth y (m + 1)⟩ := by
          simp [addMonth, hm, hd, hm1]
        rw [ham]
        show daysBeforeYear y + daysBeforeMonth y m + d
          < daysBeforeYear y + daysBeforeMonth y (m + 2) + (d - daysInMonth y (m + 1))
        have h1 : daysBeforeMonth y (m + 2)
            = daysBeforeMonth y (m + 1) + daysInMonth y (m + 1) := rfl
        have h2 : daysBeforeMonth y (m + 1) = daysBeforeMonth y m + daysInMonth y m := rfl
        have h3 := daysInMonth_pos y m
        omega

lemma getTime_le {a b : JSDate} : getTime a ≤ getTime b ↔ dayNumber a ≤ dayNumber b := by
  unfold getTime
  omega

lemma mem_genDates_le {fuel : ℕ} {endD cur x : JSDate} (hx : x ∈ genDates fuel endD cur) :
    dayNumber cur ≤ dayNumber x := by
  induction fuel generalizing cur with
  | zero => simp [genDates] at hx
  | succ f ih =>
    unfold genDates at hx
    split at hx
    · rcases List.mem_cons.1 hx with rfl | hx'
      · exact le_refl _
      · exact le_trans (le_of_lt (dayNumber_addMonth cur)) (ih hx')
    · simp at hx

/-- The dates visited by the batch loop have strictly increasing day
numbers. -/
lemma genDates_pairwise (fuel : ℕ) (endD cur : JSDate) :
    (genDates fuel endD cur).Pairwise (fun a b => dayNumber a < dayNumber b) := by
  induction fuel generalizing cur with
  | zero => simp [genDates]
  | succ f ih =>
    unfold genDates
    split
    · exact List.Pairwise.cons
        (fun x hx => lt_of_lt_of_le (dayNumber_addMonth cur) (mem_genDates_le hx))
        (ih _)
    · exact List.Pairwise.nil

lemma genDates_succ_eq (endD : JSDate) :
    ∀ (f : ℕ) (cur : JSDate), dayNumber endD + 1 - dayNumber cur ≤ f →
      genDates (f + 1) endD cur = genDates f endD cur := by
  intro f
  induction f with
  | zero =>
    intro cur hb
    have hc : ¬ getTime cur ≤ getTime endD := by
      rw [getTime_le]
      omega
    unfold genDates
    rw [if_neg hc]
  | succ f ih =>
    intro cur hb
    show genDates (f + 2) endD cur = genDates (f + 1) endD cur
    unfold genDates
    by_cases hc : getTime cur ≤ getTime endD
    · rw [if_pos hc, if_pos hc]
      have h1 := dayNumber_addMonth cur
      have h2 : dayNumber cur ≤ dayNumber endD := getTime_le.1 hc
      rw [ih (addMonth cur) (by omega)]
    · rw [if_neg hc, if_neg hc]

/-- Fuel sufficiency for the loop embedding: beyond the day-distance bound the
fuel argument is irrelevant, because every `addMonth` step advances the day
number by at least one.  This justifies running the `while` loop with fuel
`dayNumber endD + 1 - dayNumber startD` in `handleBatchCreateGo`. -/
lemma genDates_stable (endD cur : JSDate) (f : ℕ)
    (hb : dayNumber endD + 1 - dayNumber cur ≤ f) (k : ℕ) :
    genDates (f + k) endD cur = genDates f endD cur := by
  induction k with
  | zero => rfl
  | succ k ih =>
    rw [show f + (k + 1) = (f + k) + 1 from rfl, genDates_succ_eq endD (f + k) cur (by omega), ih]

/-- C8 (amended): the ids generated within a single batch run are pairwise
distinct, because with the run clock fixed each id is
`now + currentDate.getTime()` and the iterated dates have strictly increasing
timestamps.  Distinctness from pre-existing bill ids is NOT guaranteed by the
`Date.now() + getTime()` scheme (see the counterexample). -/
theorem claim_C8 (inp : BatchInput) (now : ℤ) (bills : List Bill)
    (h : handleBatchCreate inp now = .created bills) :
    (bills.map Bill.id).Nodup := by
  obtain ⟨s, e, _, _, rfl⟩ := handleBatchCreate_created h
  rw [List.map_map]
  apply List.pairwise_map.2
  refine (genDates_pairwise (dayNumber e + 1 - dayNumber s) e s).imp ?_
  intro a b hab
  show now + getTime a ≠ now + getTime b
  unfold getTime
  omega

section

attribute [local semireducible] Rat.mul Rat.add Rat.sub Rat.inv

/-- C3 (code bug): the month iteration is driven by full JS `Date` values, so
the day-of-month is NOT irrelevant.  With `startDate = 2024-01-31` and
`endDate = 2024-03-31` (a January-through-March range), `setMonth` turns
Jan 31 into "Feb 31", which normalises to Mar 2: the run emits only two
bills, labelled `"2024年 01月"` and `"2024年 03月"`, skipping February
entirely, where the specification promises exactly one bill per calendar
month (three bills, with `"2024年 02月"` in between). -/
theorem claim_C3 :
    handleBatchCreate
        { allFamilies := [⟨1, "A", 1⟩], selectedFamilyIds := [1],
          extraServiceCosts := fun _ => none, totalCost := .filled (some 90),
          startDate := some ⟨2024, 0, 31⟩, endDate := some ⟨2024, 2, 31⟩ } 0
      = .created
          [⟨86400000 * 739282, "2024年 01月", 90, 90, [⟨1, "A", 1, ⟨false, 0⟩⟩]⟩,
           ⟨86400000 * 739313, "2024年 03月", 90, 90, [⟨1, "A", 1, ⟨false, 0⟩⟩]⟩] := by
  decide

/-- Witness for C8 (amended): a two-month run produces two distinct ids. -/
theorem claim_C8_witness :
    (([⟨86400000 * 739266, "2024年 01月", 90, 90, [⟨1, "A", 1, ⟨false, 0⟩⟩]⟩,
       ⟨86400000 * 739297, "2024年 02月", 90, 90, [⟨1, "A", 1, ⟨false, 0⟩⟩]⟩] : List Bill).map
        Bill.id).Nodup :=
  claim_C8
    { allFamilies := [⟨1, "A", 1⟩], selectedFamilyIds := [1],
      extraServiceCosts := fun _ => none, totalCost := .filled (some 90),
      startDate := some ⟨2024, 0, 15⟩, endDate := some ⟨2024, 1, 15⟩ } 0 _ (by decide)

/-- C8 as frozen is false against pre-existing bills: a stored bill whose id
happens to equal `now + startDate.getTime()` collides with the first
generated bill, so the persisted collection ends up with a duplicated id. -/
theorem claim_C8_counterexample :
    ¬ ((persistedBatchBills
          [⟨86400000 * 739266, "2023年 12月", 10, 10, []⟩]
          { allFamilies := [⟨1, "A", 1⟩], selectedFamilyIds := [1],
            extraServiceCosts := fun _ => none, totalCost := .filled (some 90),
            startDate := some ⟨2024, 0, 15⟩, endDate := some ⟨2024, 0, 15⟩ } 0).map
          Bill.id).Nodup := by
  decide

end

/-! ## Decimal rendering lemmas -/

lemma digitChar_inj (a b : ℕ) (ha : a < 10) (hb : b < 10)
    (h : digitChar a = digitChar b) : a = b := by
  interval_cases a <;> interval_cases b <;> revert h <;> decide

lemma toDecCore_ne_nil (f n : ℕ) (h : n < f) : toDecCore f n ≠ [] := by
  rcases f with _ | f
  · omega
  unfold toDecCore
  by_cases h10 : n < 10
  · simp [h10]
  · simp [h10]

lemma toDecCore_congr : ∀ (n f g : ℕ), n < f → n < g → toDecCore f n = toDecCore g n := by
  intro n
  induction n using Nat.strong_induction_on with
  | _ n ih =>
    intro f g hf hg
    rcases f with _ | f
    · omega
    rcases g with _ | g
    · omega
    unfold toDecCore
    by_cases h10 : n < 10
    · simp [h10]
    · rw [if_neg h10, if_neg h10, ih (n / 10) (by omega) f g (by omega) (by omega)]

lemma toDecCore_inj : ∀ (a b : ℕ), toDecCore (a + 1) a = toDecCore (b + 1) b → a = b := by
  intro a
  induction a using Nat.strong_induction_on with
  | _ a ih =>
    intro b h
    unfold toDecCore at h
    by_cases ha : a < 10 <;> by_cases hb : b < 10
    · rw [if_pos ha, if_pos hb] at h
      injection h with h1 _
      exact digitChar_inj a b ha hb h1
    · rw [if_pos ha, if_neg hb] at h
      have hne := toDecCore_ne_nil b (b / 10) (by omega)
      cases hcc : toDecCore b (b / 10) with
      | nil => exact absurd hcc hne
      | cons x xs =>
        rw [hcc, List.cons_append] at h
        injection h with _ h2
        exact absurd h2.symm (by simp)
    · rw [if_neg ha, if_pos hb] at h
      have hne := toDecCore_ne_nil a (a / 10) (by omega)
      cases hcc : toDecCore a (a / 10) with
      | nil => exact absurd hcc hne
      | cons x xs =>
        rw [hcc, List.cons_append] at h
        injection h with _ h2
        exact absurd h2 (by simp)
    · rw [if_neg ha, if_neg hb] at h
      obtain ⟨h1, h2⟩ := List.append_inj' h (by simp)
      have hm : a % 10 = b % 10 := by
        injection h2 with h2' _
        exact digitChar_inj _ _ (by omega) (by omega) h2'
      have hd : a / 10 = b / 10 := by
        apply ih (a / 10) (by omega)
        calc toDecCore (a / 10 + 1) (a / 10)
            = toDecCore a (a / 10) := toDecCore_congr (a / 10) (a / 10 + 1) a (by omega) (by omega)
          _ = toDecCore b (b / 10) := h1
          _ = toDecCore (b / 10 + 1) (b / 10) := toDecCore_congr (b / 10) b (b / 10 + 1) (by omega) (by omega)
      omega

lemma toDecString_injective : Function.Injective toDecString := by
  intro a b h
  exact toDecCore_inj a b (congrArg String.data h)

/-! ## Aggregation lemmas -/

lemma entryNames_cons (e : SummaryEntry) (l : List SummaryEntry) :
    entryNames (e :: l) = e.name :: entryNames l := rfl

lemma totalFor_upsert (s : List SummaryEntry) (k mo : String) (c : ℚ) (n : String) :
    totalFor (upsert s k mo c) n = totalFor s n + (if n = k then c else 0) := by
  induction s with
  | nil =>
    by_cases h : n = k
    · subst h
      simp [upsert, totalFor]
    · have h' : ¬ k = n := fun hh => h hh.symm
      simp [upsert, totalFor, h, h']
  | cons e rest ih =>
    by_cases he : e.name = k
    · rw [show upsert (e :: rest) k mo c
          = ⟨e.name, e.totalCost + c, e.monthlyBreakdown ++ [(mo, c)]⟩ :: rest from by
        rw [upsert, if_pos he]]
      by_cases hn : e.name = n
      · have hnk : n = k := by rw [← hn]; exact he
        show (if e.name = n then e.totalCost + c else totalFor rest n)
          = (if e.name = n then e.totalCost else totalFor rest n) + (if n = k then c else 0)
        rw [if_pos hn, if_pos hn, if_pos hnk]
      · have hnk : ¬ n = k := fun hh => hn (he.trans hh.symm)
        show (if e.name = n then e.totalCost + c else totalFor rest n)
          = (if e.name = n then e.totalCost else totalFor rest n) + (if n = k then c else 0)
        rw [if_neg hn, if_neg hn, if_neg hnk]
        simp
    · rw [show upsert (e :: rest) k mo c = e :: upsert rest k mo c from by
        rw [upsert, if_neg he]]
      show (if e.name = n then e.totalCost else totalFor (upsert rest k mo c) n)
        = (if e.name = n then e.totalCost else totalFor rest n) + (if n = k then c else 0)
      by_cases hn : e.name = n
      · have hnk : ¬ n = k := fun hh => he (by rw [hn, hh])
        rw [if_pos hn, if_pos hn, if_neg hnk]
        simp
      · rw [if_neg hn, if_neg hn, ih]

lemma totalFor_famFold (b : Bill) (n : String) (ps : List Participation) :
    ∀ acc : List SummaryEntry,
      totalFor (ps.foldl (fun a p => upsert a (summaryKey p) b.billMonth (contribution b p)) acc) n
        = totalFor acc n
          + ((ps.filter (fun p => summaryKey p == n)).map (fun p => contribution b p)).sum := by
  induction ps with
  | nil => intro acc; simp
  | cons p ps ih =>
    intro acc
    simp only [List.foldl_cons]
    rw [ih, totalFor_upsert]
    by_cases h : summaryKey p = n
    · rw [List.filter_cons_of_pos (by simp [h])]
      simp only [List.map_cons, List.sum_cons]
      rw [if_pos h.symm]
      ring
    · rw [List.filter_cons_of_neg (by simp [h])]
      rw [if_neg (fun hh => h hh.symm)]
      ring

lemma totalFor_aggregate (n : String) (bs : List Bill) :
    ∀ acc : List SummaryEntry,
      totalFor (bs.foldl addBill acc) n
        = totalFor acc n
          + (bs.map (fun b => ((b.families.filter (fun p => summaryKey p == n)).map
              (fun p => contribution b p)).sum)).sum := by
  induction bs with
  | nil => intro acc; simp
  | cons b bs ih =>
    intro acc
    simp only [List.foldl_cons, List.map_cons, List.sum_cons]
    rw [ih]
    rw [show totalFor (addBill acc b) n
        = totalFor acc n + ((b.families.filter (fun p => summaryKey p == n)).map
            (fun p => contribution b p)).sum from totalFor_famFold b n b.families acc]
    ring

lemma mem_entryNames_upsert {s : List SummaryEntry} {k mo : String} {c : ℚ} {n : String} :
    n ∈ entryNames (upsert s k mo c) ↔ n ∈ entryNames s ∨ n = k := by
  induction s with
  | nil => simp [upsert, entryNames]
  | cons e rest ih =>
    by_cases he : e.name = k
    · rw [show upsert (e :: rest) k mo c
          = ⟨e.name, e.totalCost + c, e.monthlyBreakdown ++ [(mo, c)]⟩ :: rest from by
        rw [upsert, if_pos he]]
      rw [entryNames_cons, entryNames_cons]
      simp only [List.mem_cons]
      rw [he]
      tauto
    · rw [show upsert (e :: rest) k mo c = e :: upsert rest k mo c from by
        rw [upsert, if_neg he]]
      rw [entryNames_cons, entryNames_cons]
      simp only [List.mem_cons, ih]
      tauto

lemma nodup_entryNames_upsert {s : List SummaryEntry} {k mo : String} {c : ℚ}
    (h : (entryNames s).Nodup) : (entryNames (upsert s k mo c)).Nodup := by
  induction s with
  | nil => simp [upsert, entryNames]
  | cons e rest ih =>
    rw [entryNames_cons] at h
    obtain ⟨hmem, hrest⟩ := List.nodup_cons.1 h
    by_cases he : e.name = k
    · rw [show upsert (e :: rest) k mo c
          = ⟨e.name, e.totalCost + c, e.monthlyBreakdown ++ [(mo, c)]⟩ :: rest from by
        rw [upsert, if_pos he]]
      rw [entryNames_cons]
      exact List.nodup_cons.2 ⟨hmem, hrest⟩
    · rw [show upsert (e :: rest) k mo c = e :: upsert rest k mo c from by
        rw [upsert, if_neg he]]
      rw [entryNames_cons]
      refine List.nodup_cons.2 ⟨?_, ih hrest⟩
      intro hmem2
      rcases mem_entryNames_upsert.1 hmem2 with hh | hh
      · exact hmem hh
      · exact he hh

lemma nodup_entryNames_famFold (b : Bill) (ps : List Participation) :
    ∀ acc : List SummaryEntry, (entryNames acc).Nodup →
      (entryNames (ps.foldl
        (fun a p => upsert a (summaryKey p) b.billMonth (contribution b p)) acc)).Nodup := by
  induction ps with
  | nil => intro acc h; exact h
  | cons p ps ih =>
    intro acc h
    simp only [List.foldl_cons]
    exact ih _ (nodup_entryNames_upsert h)

lemma nodup_entryNames_aggregate (bs : List Bill) :
    ∀ acc : List SummaryEntry, (entryNames acc).Nodup →
      (entryNames (bs.foldl addBill acc)).Nodup := by
  induction bs with
  | nil => intro acc h; exact h
  | cons b bs ih =>
    intro acc h
    simp only [List.foldl_cons]
    exact ih _ (nodup_entryNames_famFold b b.families acc h)

lemma summaryKey_setId (p : Participation) (j : ℕ) (h : p.name ≠ "") :
    summaryKey { p with id := j } = summaryKey p := by
  simp [summaryKey, h]

lemma addBill_setIds (g : ℕ → ℕ) (b : Bill) (acc : List SummaryEntry)
    (h : ∀ p ∈ b.families, p.name ≠ "") :
    addBill acc (setParticipationIds g b) = addBill acc b := by
  unfold addBill
  rw [show (setParticipationIds g b).families
      = b.families.map (fun p => { p with id := g p.id }) from rfl]
  rw [List.foldl_map]
  apply List.foldl_ext
  intro a p hp
  rw [summaryKey_setId p (g p.id) (h p hp)]
  rfl

lemma filter_inRange_setIds (g : ℕ → ℕ) (bills : List Bill) (s e : String) :
    (bills.map (setParticipationIds g)).filter (inRange s e)
      = (bills.filter (inRange s e)).map (setParticipationIds g) := by
  rw [List.filter_map]
  congr 1

/-- C5: each bill in the queried range contributes, per participation,
exactly `lineCount × bill.costPerLine + extraService.cost` to the entry of
that participation's grouping key: the accumulated `totalCost` of any key is
the sum of those contributions, with the extra cost added unconditionally
(the formula contains `p.extraService.cost` with no reference to
`hasService`, faithfully to line 310 of `index.tsx`). -/
theorem claim_C5 (bills : List Bill) (startMonthStr endMonthStr k : String) :
    totalFor (handleCalculateSummary bills startMonthStr endMonthStr) k
      = ((bills.filter (inRange startMonthStr endMonthStr)).map
          (fun b => ((b.families.filter (fun p => summaryKey p == k)).map
              (fun p => p.lines * b.costPerLine + p.extraService.cost)).sum)).sum := by
  unfold handleCalculateSummary
  rw [totalFor_aggregate]
  simp [totalFor, contribution]

/-- C6: aggregation groups by family name, not id.  Rewriting every
participation id (for bills with non-empty names) leaves the whole summary
unchanged; the summary never holds two entries with the same key, so
same-named participations are merged into a single entry; and each key's
`totalCost` sums exactly the contributions whose key matches — entries with
different keys are never merged. -/
theorem claim_C6 (bills : List Bill) (startMonthStr endMonthStr : String) (g : ℕ → ℕ)
    (hnames : ∀ b ∈ bills, ∀ p ∈ b.families, p.name ≠ "") :
    handleCalculateSummary (bills.map (setParticipationIds g)) startMonthStr endMonthStr
        = handleCalculateSummary bills startMonthStr endMonthStr
    ∧ (entryNames (handleCalculateSummary bills startMonthStr endMonthStr)).Nodup
    ∧ ∀ k, totalFor (handleCalculateSummary bills startMonthStr endMonthStr) k
        = ((bills.filter (inRange startMonthStr endMonthStr)).map
            (fun b => ((b.families.filter (fun p => summaryKey p == k)).map
                (fun p => contribution b p)).sum)).sum := by
  refine ⟨?_, ?_, ?_⟩
  · unfold handleCalculateSummary
    rw [filter_inRange_setIds, List.foldl_map]
    apply List.foldl_ext
    intro acc b hb
    exact addBill_setIds g b acc (hnames b (List.mem_filter.1 hb).1)
  · exact nodup_entryNames_aggregate _ [] (by simp [entryNames])
  · intro k
    unfold handleCalculateSummary
    rw [totalFor_aggregate]
    simp [totalFor]

/-- C10: a participation with an empty (falsy) name is grouped under the
synthesized key `"家庭 <id>"`; two unnamed participations with different ids
get different keys (decimal rendering is injective), hence end up in separate
summary entries, and an unnamed participation's entry accumulates exactly the
contributions of its own synthesized key. -/
theorem claim_C10 (bills : List Bill) (startMonthStr endMonthStr : String)
    (p q : Participation) (hp : p.name = "") (hq : q.name = "") (hne : p.id ≠ q.id) :
    summaryKey p = "家庭 " ++ toDecString p.id
    ∧ summaryKey p ≠ summaryKey q
    ∧ totalFor (handleCalculateSummary bills startMonthStr endMonthStr) (summaryKey p)
        = ((bills.filter (inRange startMonthStr endMonthStr)).map
            (fun b => ((b.families.filter (fun r => summaryKey r == summaryKey p)).map
                (fun r => contribution b r)).sum)).sum := by
  refine ⟨by simp [summaryKey, hp], ?_, ?_⟩
  · have hkp : summaryKey p = "家庭 " ++ toDecString p.id := by simp [summaryKey, hp]
    have hkq : summaryKey q = "家庭 " ++ toDecString q.id := by simp [summaryKey, hq]
    rw [hkp, hkq]
    intro hcontra
    apply hne
    apply toDecString_injective
    have h2 := congrArg String.data hcontra
    simp only [String.data_append] at h2
    have h3 := List.append_cancel_left h2
    exact congrArg String.mk h3
  · unfold handleCalculateSummary
    rw [totalFor_aggregate]
    simp [totalFor]

section

attribute [local semireducible] Rat.mul Rat.add Rat.sub Rat.inv

/-- Witness for C6: one bill holding two same-named participations with
different ids; rewriting ids through `+ 7` leaves the summary unchanged, the
entry names are distinct, and the key `"X"` accumulates both contributions. -/
theorem claim_C6_witness :
    handleCalculateSummary
        ([⟨5, "2024年 01月", 30, 10, [⟨1, "X", 1, ⟨false, 0⟩⟩, ⟨2, "X", 2, ⟨false, 0⟩⟩]⟩].map
          (setParticipationIds (fun i => i + 7)))
        "2024年 01月" "2024年 01月"
      = handleCalculateSummary
          [⟨5, "2024年 01月", 30, 10, [⟨1, "X", 1, ⟨false, 0⟩⟩, ⟨2, "X", 2, ⟨false, 0⟩⟩]⟩]
          "2024年 01月" "2024年 01月"
    ∧ (entryNames (handleCalculateSummary
          [⟨5, "2024年 01月", 30, 10, [⟨1, "X", 1, ⟨false, 0⟩⟩, ⟨2, "X", 2, ⟨false, 0⟩⟩]⟩]
          "2024年 01月" "2024年 01月")).Nodup
    ∧ totalFor (handleCalculateSummary
          [⟨5, "2024年 01月", 30, 10, [⟨1, "X", 1, ⟨false, 0⟩⟩, ⟨2, "X", 2, ⟨false, 0⟩⟩]⟩]
          "2024年 01月" "2024年 01月") "X"
        = (([⟨5, "2024年 01月", 30, 10, [⟨1, "X", 1, ⟨false, 0⟩⟩, ⟨2, "X", 2, ⟨false, 0⟩⟩]⟩].filter
              (inRange "2024年 01月" "2024年 01月")).map
            (fun b => ((b.families.filter (fun p => summaryKey p == "X")).map
                (fun p => contribution b p)).sum)).sum :=
  ⟨(claim_C6 [⟨5, "2024年 01月", 30, 10, [⟨1, "X", 1, ⟨false, 0⟩⟩, ⟨2, "X", 2, ⟨false, 0⟩⟩]⟩]
      "2024年 01月" "2024年 01月" (fun i => i + 7) (by decide)).1,
   (claim_C6 [⟨5, "2024年 01月", 30, 10, [⟨1, "X", 1, ⟨false, 0⟩⟩, ⟨2, "X", 2, ⟨false, 0⟩⟩]⟩]
      "2024年 01月" "2024年 01月" (fun i => i + 7) (by decide)).2.1,
   (claim_C6 [⟨5, "2024年 01月", 30, 10, [⟨1, "X", 1, ⟨false, 0⟩⟩, ⟨2, "X", 2, ⟨false, 0⟩⟩]⟩]
      "2024年 01月" "2024年 01月" (fun i => i + 7) (by decide)).2.2 "X"⟩

/-- Witness for C10: two unnamed participations with ids 3 and 7 inside one
bill; their keys are `"家庭 3"` and `"家庭 7"`, which differ. -/
theorem claim_C10_witness :
    summaryKey ⟨3, "", 1, ⟨false, 0⟩⟩
        = "家庭 " ++ toDecString (Participation.mk 3 "" 1 ⟨false, 0⟩).id
    ∧ summaryKey ⟨3, "", 1, ⟨false, 0⟩⟩ ≠ summaryKey ⟨7, "", 2, ⟨false, 0⟩⟩
    ∧ totalFor (handleCalculateSummary
          [⟨5, "2024年 01月", 30, 10, [⟨3, "", 1, ⟨false, 0⟩⟩, ⟨7, "", 2, ⟨false, 0⟩⟩]⟩]
          "2024年 01月" "2024年 01月") (summaryKey ⟨3, "", 1, ⟨false, 0⟩⟩)
        = (([⟨5, "2024年 01月", 30, 10, [⟨3, "", 1, ⟨false, 0⟩⟩, ⟨7, "", 2, ⟨false, 0⟩⟩]⟩].filter
              (inRange "2024年 01月" "2024年 01月")).map
            (fun b => ((b.families.filter
                (fun r => summaryKey r == summaryKey ⟨3, "", 1, ⟨false, 0⟩⟩)).map
                (fun r => contribution b r)).sum)).sum :=
  claim_C10
    [⟨5, "2024年 01月", 30, 10, [⟨3, "", 1, ⟨false, 0⟩⟩, ⟨7, "", 2, ⟨false, 0⟩⟩]⟩]
    "2024年 01月" "2024年 01月" ⟨3, "", 1, ⟨false, 0⟩⟩ ⟨7, "", 2, ⟨false, 0⟩⟩
    rfl rfl (by decide)

end

end BillSplit
